import Mathlib

/-!
Shallow embedding of `src/assignment1/solution.py` (Basset assignment):
the metric functions `compute_fpr_tpr`, `compute_auc`, the `BassetDataset`
constructor / `__len__` / `__getitem__`, and the `train_loop` / `valid_loop`
drivers.  Real-valued quantities are modelled with `ℚ`; numpy arrays with
lists or `Fin`-indexed functions; Python exceptions with `Except`.
-/

namespace Solution

/-- Result dictionary of `compute_fpr_tpr` (keys `fpr`, `tpr`). -/
structure FprTpr where
  fpr : ℚ
  tpr : ℚ
deriving Repr, DecidableEq

/-- Embedding of `compute_fpr_tpr(y_true, y_pred)` (solution.py lines 184-212).
`tp = sum(logical_and(y_pred == 1, y_true == 1))` and so on, elementwise over
the two arrays (zipped); `tpr = tp / (tp + fn)` when there are positives else
`0.0`, `fpr = fp / (tn + fp)` when there are negatives else `0.0`. -/
def compute_fpr_tpr (y_true y_pred : List ℚ) : FprTpr :=
  let tp := (y_pred.zip y_true).countP (fun p => p.1 == 1 && p.2 == 1)
  let tn := (y_pred.zip y_true).countP (fun p => p.1 == 0 && p.2 == 0)
  let fp := (y_pred.zip y_true).countP (fun p => p.1 == 1 && p.2 == 0)
  let fn := (y_pred.zip y_true).countP (fun p => p.1 == 0 && p.2 == 1)
  let positives := tp + fn
  let negatives := tn + fp
  { tpr := if 0 < positives then (tp : ℚ) / (positives : ℚ) else 0
    fpr := if 0 < negatives then (fp : ℚ) / (negatives : ℚ) else 0 }

/-- `np.linspace(0, 1, num=20, endpoint=False)`: the thresholds
`k = 0, 1/20, 2/20, ..., 19/20`. -/
def k_list : List ℚ := (List.range 20).map (fun i => (i : ℚ) / 20)

/-- `(y_model > k).astype(int)`: elementwise strict comparison of the scores
with the threshold, cast to `0`/`1`. -/
def threshold_pred (k : ℚ) (y_model : List ℚ) : List ℚ :=
  y_model.map (fun s => if k < s then (1 : ℚ) else 0)

/-- Embedding of `np.trapz(y, x)`: the trapezoidal rule
`Σ (x_{i+1} - x_i) * (y_i + y_{i+1}) / 2` over consecutive points. -/
def trapz : List ℚ → List ℚ → ℚ
  | y1 :: y2 :: ys, x1 :: x2 :: xs => (x2 - x1) * (y1 + y2) / 2 + trapz (y2 :: ys) (x2 :: xs)
  | _, _ => 0

/-- Embedding of `compute_auc(y_true, y_model)` (solution.py lines 343-365):
for each threshold in `k_list` (in that order) threshold the scores, compute
the fpr/tpr pair, and return `abs(np.trapz(tpr, fpr))`. -/
def compute_auc (y_true y_model : List ℚ) : ℚ :=
  let fpr := k_list.map (fun k => (compute_fpr_tpr y_true (threshold_pred k y_model)).fpr)
  let tpr := k_list.map (fun k => (compute_fpr_tpr y_true (threshold_pred k y_model)).tpr)
  |trapz tpr fpr|

/-- Specification-side confusion count: number of positions where the true
label is `1` and the prediction is `1` (pairing the arrays true-first, unlike
the source which pairs prediction-first). -/
def confusionTP (y_true y_pred : List ℚ) : ℕ :=
  ((y_true.zip y_pred).filter (fun p => p.1 == 1 && p.2 == 1)).length

/-- Specification-side confusion count: true label `1`, prediction `0`. -/
def confusionFN (y_true y_pred : List ℚ) : ℕ :=
  ((y_true.zip y_pred).filter (fun p => p.1 == 1 && p.2 == 0)).length

/-- Specification-side confusion count: true label `0`, prediction `1`. -/
def confusionFP (y_true y_pred : List ℚ) : ℕ :=
  ((y_true.zip y_pred).filter (fun p => p.1 == 0 && p.2 == 1)).length

/-- Specification-side confusion count: true label `0`, prediction `0`. -/
def confusionTN (y_true y_pred : List ℚ) : ℕ :=
  ((y_true.zip y_pred).filter (fun p => p.1 == 0 && p.2 == 0)).length

/-- Specification-side trapezoidal integral, written as an indexed sum over
consecutive points rather than by recursion. -/
def trapezoidSpec (ys xs : List ℚ) : ℚ :=
  ∑ i ∈ Finset.range (xs.length - 1),
    (xs.getD (i + 1) 0 - xs.getD i 0) * (ys.getD i 0 + ys.getD (i + 1) 0) / 2

/-- The 20 thresholds written the way the specification writes them:
`k = 0, 0.05, 0.10, ..., 0.95` in increasing order. -/
def spec_thresholds : List ℚ := (List.range 20).map (fun j => (j : ℚ) * (5 / 100))

/-- AUC as the specification describes it: threshold at each of the 20
increasing thresholds, collect the `(fpr, tpr)` pairs via `compute_fpr_tpr`,
and take the absolute trapezoidal integral of tpr over fpr in that order. -/
def compute_auc_claim (y_true y_model : List ℚ) : ℚ :=
  let pts := spec_thresholds.map (fun k =>
    compute_fpr_tpr y_true (y_model.map (fun s => if s > k then (1 : ℚ) else 0)))
  |trapezoidSpec (pts.map FprTpr.tpr) (pts.map FprTpr.fpr)|

/-- Number of positive true labels among the paired score/label entries; the
denominator of every tpr value in `compute_auc`. -/
def posCount (y_true y_model : List ℚ) : ℕ :=
  (y_model.zip y_true).countP (fun p => p.2 == 1)

/-- Number of negative true labels among the paired score/label entries. -/
def negCount (y_true y_model : List ℚ) : ℕ :=
  (y_model.zip y_true).countP (fun p => p.2 == 0)

/-- True positives of the thresholded prediction at threshold `k`: entries
whose score strictly exceeds `k` and whose true label is `1`. -/
def tpAt (y_true y_model : List ℚ) (k : ℚ) : ℕ :=
  (y_model.zip y_true).countP (fun p => decide (k < p.1) && p.2 == 1)

/-- False positives of the thresholded prediction at threshold `k`. -/
def fpAt (y_true y_model : List ℚ) (k : ℚ) : ℕ :=
  (y_model.zip y_true).countP (fun p => decide (k < p.1) && p.2 == 0)

/-- The tpr value `compute_auc` obtains at threshold `k`. -/
def tprAt (y_true y_model : List ℚ) (k : ℚ) : ℚ :=
  if 0 < posCount y_true y_model then
    (tpAt y_true y_model k : ℚ) / (posCount y_true y_model : ℚ)
  else 0

/-- The fpr value `compute_auc` obtains at threshold `k`. -/
def fprAt (y_true y_model : List ℚ) (k : ℚ) : ℚ :=
  if 0 < negCount y_true y_model then
    (fpAt y_true y_model k : ℚ) / (negCount y_true y_model : ℚ)
  else 0

/-- `np.trapz` over a list of `(x, y)` points. -/
def trapzP : List (ℚ × ℚ) → ℚ
  | (x1, y1) :: (x2, y2) :: rest => (x2 - x1) * (y1 + y2) / 2 + trapzP ((x2, y2) :: rest)
  | _ => 0

/-- Numpy dtype tags tracked through the conversions `__getitem__` performs. -/
inductive DType
  | float16
  | float32
deriving Repr, DecidableEq

/-- A rectangular 3-D numpy array together with its dtype. -/
structure Tensor3 where
  d1 : ℕ
  d2 : ℕ
  d3 : ℕ
  dtype : DType
  data : Fin d1 → Fin d2 → Fin d3 → ℚ

/-- `np.swapaxes(arr, 0, 1)`. -/
def swapaxes01 (t : Tensor3) : Tensor3 :=
  ⟨t.d2, t.d1, t.d3, t.dtype, fun a b c => t.data b a c⟩

/-- `np.swapaxes(arr, 1, 2)`. -/
def swapaxes12 (t : Tensor3) : Tensor3 :=
  ⟨t.d1, t.d3, t.d2, t.dtype, fun a b c => t.data a c b⟩

/-- `.astype(np.float32)`: every float16 value is exactly representable as a
float32, so the conversion changes the dtype tag and nothing else. -/
def astype_float32 (t : Tensor3) : Tensor3 :=
  { t with dtype := DType.float32 }

/-- Total number of scalar entries of a 3-D array. -/
def elemCount (t : Tensor3) : ℕ := t.d1 * t.d2 * t.d3

/-- The pair of arrays a split exposes: a stack of `nIn` input items of shape
`d1 × d2 × d3` (stored as float16 on disk) and an `nOut × nLabels` output
(target) matrix. -/
structure SplitArrays where
  nIn : ℕ
  d1 : ℕ
  d2 : ℕ
  d3 : ℕ
  inputs : Fin nIn → Fin d1 → Fin d2 → Fin d3 → ℚ
  nOut : ℕ
  nLabels : ℕ
  outputs : Fin nOut → Fin nLabels → ℚ

/-- The HDF5 file `er.h5`: the arrays of the three splits plus the label
names and the test-split sample identifiers. -/
structure H5File where
  train : SplitArrays
  test : SplitArrays
  valid : SplitArrays
  target_labels : List String
  test_headers : List String

/-- A constructed `BassetDataset`: the chosen split's arrays and the id list
`list(range(len(inputs)))`. -/
structure BassetDataset where
  split : String
  arrays : SplitArrays
  ids : List (Fin arrays.nIn)

/-- The keys of `split_dict` in `BassetDataset.__init__`. -/
def split_dict_keys : List String := ["train", "test", "valid"]

/-- The `assert` at the head of `BassetDataset.__init__`: it consults only
the `split` string, before the HDF5 file is opened. -/
def bassetInitCheck (split : String) : Except String Unit :=
  if split ∈ split_dict_keys then Except.ok ()
  else Except.error "'split' argument can be only defined as 'train', 'valid' or 'test'"

/-- `BassetDataset.__init__(path, f5name, split)`: validate the split name
first; only then open the file, select the split's input/output arrays and
build `ids = list(range(len(self.inputs)))`. -/
def bassetInit (f5 : H5File) (split : String) : Except String BassetDataset :=
  match bassetInitCheck split with
  | Except.error e => Except.error e
  | Except.ok _ =>
    let arrays := if split = "train" then f5.train
                  else if split = "test" then f5.test
                  else f5.valid
    Except.ok { split := split, arrays := arrays, ids := List.finRange arrays.nIn }

/-- `BassetDataset.__len__`: `self.outputs.shape[0]`. -/
def bassetLen (ds : BassetDataset) : ℕ := ds.arrays.nOut

/-- `self.inputs[idx]` as a float16 3-D array. -/
def itemTensor (ds : BassetDataset) (idx : Fin ds.arrays.nIn) : Tensor3 :=
  ⟨ds.arrays.d1, ds.arrays.d2, ds.arrays.d3, DType.float16, ds.arrays.inputs idx⟩

/-- The `sequence` entry `BassetDataset.__getitem__(i)` returns:
`torch.from_numpy(np.swapaxes(np.swapaxes(self.inputs[self.ids[i]], 0, 1).astype(np.float32), 1, 2))`. -/
def getitem_sequence (ds : BassetDataset) (i : Fin ds.ids.length) : Tensor3 :=
  swapaxes12 (astype_float32 (swapaxes01 (itemTensor ds (ds.ids.get i))))

/-- A batch a dataloader yields: a list of per-sample input tensors
(flattened) and the matching list of per-sample target vectors. -/
structure Batch where
  sequence : List (List ℚ)
  target : List (List ℚ)

/-- The mutable state of a torch module: `params` stands for everything the
module stores (learnable parameters and buffers such as batch-norm running
statistics), `training` is the train/eval mode flag. -/
structure TorchModel (P : Type) where
  params : P
  training : Bool

/-- The accumulator variables of `train_loop` / `valid_loop`:
`output['total_score']`, `output['total_loss']`, `counter`, `batch_counter`. -/
structure LoopAcc where
  total_score : ℚ
  total_loss : ℚ
  counter : ℕ
  batch_counter : ℕ

/-- One iteration of the `train_loop` body: forward pass in train mode (which
may update batch-norm running statistics, hence the returned state),
`criterion`, `loss.backward()` + `optimizer.step()` (abstracted as `optStep`),
sigmoid, per-batch AUC via `compute_auc`, and the four accumulator updates
`total_score += auc`, `total_loss += loss * n`, `counter += n`,
`batch_counter += 1`. -/
def train_batch_update {P O : Type}
    (forwardT : P → List (List ℚ) → P × List (List ℚ))
    (criterion : List (List ℚ) → List (List ℚ) → ℚ)
    (sigmoid : ℚ → ℚ)
    (optStep : O → P → List (List ℚ) → List (List ℚ) → O × P)
    (st : (P × O) × LoopAcc) (batch : Batch) : (P × O) × LoopAcc :=
  let fw := forwardT st.1.1 batch.sequence
  let pred := fw.2
  let y := batch.target
  let lossv := criterion pred y
  let stepped := optStep st.1.2 fw.1 pred y
  let pred_np := (pred.map (List.map sigmoid)).flatten
  let true_np := y.flatten
  let auc := compute_auc true_np pred_np
  let n := y.length
  ((stepped.2, stepped.1),
   { total_score := st.2.total_score + auc,
     total_loss := st.2.total_loss + lossv * (n : ℚ),
     counter := st.2.counter + n,
     batch_counter := st.2.batch_counter + 1 })

/-- Embedding of `train_loop` (solution.py lines 378-432): put the model in
train mode, fold the batch body over the dataloader, then divide the
accumulated score by `batch_counter` — a Python `ZeroDivisionError` when no
batch was seen — and return `(total_score, total_loss)` with the loss left
unnormalized. -/
def train_loop {P O : Type} (model : TorchModel P) (train_dataloader : List Batch)
    (optimizer : O)
    (forwardT : P → List (List ℚ) → P × List (List ℚ))
    (criterion : List (List ℚ) → List (List ℚ) → ℚ)
    (sigmoid : ℚ → ℚ)
    (optStep : O → P → List (List ℚ) → List (List ℚ) → O × P) :
    (TorchModel P × O) × Except String (ℚ × ℚ) :=
  let res := train_dataloader.foldl (train_batch_update forwardT criterion sigmoid optStep)
    ((model.params, optimizer), ⟨0, 0, 0, 0⟩)
  ((⟨res.1.1, true⟩, res.1.2),
   if res.2.batch_counter = 0 then
     Except.error "ZeroDivisionError: float division by zero"
   else Except.ok (res.2.total_score / (res.2.batch_counter : ℚ), res.2.total_loss))

/-- One iteration of the `valid_loop` body: a forward pass in eval mode is a
pure function of the module state (no parameter or running-statistic update
happens with `training == False`, and the loss is detached), so only the
accumulators change. -/
def valid_batch_update {P : Type} (p : P)
    (forwardE : P → List (List ℚ) → List (List ℚ))
    (criterion : List (List ℚ) → List (List ℚ) → ℚ)
    (sigmoid : ℚ → ℚ)
    (acc : LoopAcc) (batch : Batch) : LoopAcc :=
  let pred := forwardE p batch.sequence
  let y := batch.target
  let lossv := criterion pred y
  let pred_np := (pred.map (List.map sigmoid)).flatten
  let true_np := y.flatten
  let auc := compute_auc true_np pred_np
  let n := y.length
  { total_score := acc.total_score + auc,
    total_loss := acc.total_loss + lossv * (n : ℚ),
    counter := acc.counter + n,
    batch_counter := acc.batch_counter + 1 }

/-- Embedding of `valid_loop` (solution.py lines 435-485): put the model in
eval mode, fold the batch body over the dataloader (the `optimizer` argument
is received but never used), then divide the accumulated score by
`batch_counter` and return `(total_score, total_loss)` with the loss left
unnormalized. -/
def valid_loop {P O : Type} (model : TorchModel P) (valid_dataloader : List Batch)
    (optimizer : O)
    (forwardE : P → List (List ℚ) → List (List ℚ))
    (criterion : List (List ℚ) → List (List ℚ) → ℚ)
    (sigmoid : ℚ → ℚ) :
    TorchModel P × Except String (ℚ × ℚ) :=
  let res := valid_dataloader.foldl (valid_batch_update model.params forwardE criterion sigmoid)
    ⟨0, 0, 0, 0⟩
  (⟨model.params, false⟩,
   if res.batch_counter = 0 then
     Except.error "ZeroDivisionError: float division by zero"
   else Except.ok (res.total_score / (res.batch_counter : ℚ), res.total_loss))

/-- The per-batch `(auc, loss value, batch size)` triples `train_loop`
produces, with the module and optimizer state threaded through the batches in
order. -/
def train_trace {P O : Type}
    (forwardT : P → List (List ℚ) → P × List (List ℚ))
    (criterion : List (List ℚ) → List (List ℚ) → ℚ)
    (sigmoid : ℚ → ℚ)
    (optStep : O → P → List (List ℚ) → List (List ℚ) → O × P) :
    P → O → List Batch → List (ℚ × ℚ × ℕ)
  | _, _, [] => []
  | p, opt, b :: bs =>
    let fw := forwardT p b.sequence
    let lossv := criterion fw.2 b.target
    let stepped := optStep opt fw.1 fw.2 b.target
    let auc := compute_auc b.target.flatten ((fw.2.map (List.map sigmoid)).flatten)
    (auc, lossv, b.target.length) :: train_trace forwardT criterion sigmoid optStep stepped.2 stepped.1 bs

/-- The AUC `valid_loop` computes on one batch. -/
def batch_auc {P : Type} (p : P)
    (forwardE : P → List (List ℚ) → List (List ℚ))
    (sigmoid : ℚ → ℚ) (b : Batch) : ℚ :=
  compute_auc b.target.flatten (((forwardE p b.sequence).map (List.map sigmoid)).flatten)

/-- A split with no rows at all, usable as a degenerate `H5File` content. -/
def trivialSplitArrays : SplitArrays :=
  ⟨0, 0, 0, 0, fun i => i.elim0, 0, 0, fun i => i.elim0⟩

/-- A degenerate HDF5 file whose three splits are all empty. -/
def trivialH5File : H5File :=
  ⟨trivialSplitArrays, trivialSplitArrays, trivialSplitArrays, [], []⟩

end Solution

namespace Solution

/-- Counting over a zipped pair of lists is symmetric in the two lists once
the predicate's arguments are swapped accordingly. -/
lemma countP_zip_swap (a b : List ℚ) (f : ℚ → ℚ → Bool) :
    (a.zip b).countP (fun p => f p.1 p.2) = (b.zip a).countP (fun p => f p.2 p.1) := by
  induction a generalizing b with
  | nil => simp
  | cons x xs ih =>
    cases b with
    | nil => simp
    | cons y ys => simp [List.countP_cons, ih]

/-- The source-side true-positive count of `compute_fpr_tpr` agrees with the
spec-side `confusionTP`. -/
lemma countP_tp_eq (y_true y_pred : List ℚ) :
    (y_pred.zip y_true).countP (fun p => p.1 == 1 && p.2 == 1) = confusionTP y_true y_pred := by
  rw [confusionTP, ← List.countP_eq_length_filter,
    countP_zip_swap y_pred y_true (fun a b => a == 1 && b == 1)]
  exact List.countP_congr (fun p _ => by simp [Bool.and_comm])

/-- The source-side false-negative count agrees with `confusionFN`. -/
lemma countP_fn_eq (y_true y_pred : List ℚ) :
    (y_pred.zip y_true).countP (fun p => p.1 == 0 && p.2 == 1) = confusionFN y_true y_pred := by
  rw [confusionFN, ← List.countP_eq_length_filter,
    countP_zip_swap y_pred y_true (fun a b => a == 0 && b == 1)]
  exact List.countP_congr (fun p _ => by simp [Bool.and_comm])

/-- The source-side false-positive count agrees with `confusionFP`. -/
lemma countP_fp_eq (y_true y_pred : List ℚ) :
    (y_pred.zip y_true).countP (fun p => p.1 == 1 && p.2 == 0) = confusionFP y_true y_pred := by
  rw [confusionFP, ← List.countP_eq_length_filter,
    countP_zip_swap y_pred y_true (fun a b => a == 1 && b == 0)]
  exact List.countP_congr (fun p _ => by simp [Bool.and_comm])

/-- The source-side true-negative count agrees with `confusionTN`. -/
lemma countP_tn_eq (y_true y_pred : List ℚ) :
    (y_pred.zip y_true).countP (fun p => p.1 == 0 && p.2 == 0) = confusionTN y_true y_pred := by
  rw [confusionTN, ← List.countP_eq_length_filter,
    countP_zip_swap y_pred y_true (fun a b => a == 0 && b == 0)]
  exact List.countP_congr (fun p _ => by simp [Bool.and_comm])

/-- Claim C1: `compute_fpr_tpr` returns `tpr = TP/(TP+FN)` when there is at
least one positive and `0.0` otherwise, and `fpr = FP/(FP+TN)` when there is
at least one negative and `0.0` otherwise, where `TP`, `FN`, `FP`, `TN` are
the confusion counts over the paired arrays; in particular for all-zero or
all-one true-label vectors the zero-guard fires and no division by zero
occurs. -/
theorem compute_fpr_tpr_matches_confusion_counts (y_true y_pred : List ℚ) :
    (0 < confusionTP y_true y_pred + confusionFN y_true y_pred →
      (compute_fpr_tpr y_true y_pred).tpr =
        (confusionTP y_true y_pred : ℚ) /
          ((confusionTP y_true y_pred + confusionFN y_true y_pred : ℕ) : ℚ)) ∧
    (confusionTP y_true y_pred + confusionFN y_true y_pred = 0 →
      (compute_fpr_tpr y_true y_pred).tpr = 0) ∧
    (0 < confusionFP y_true y_pred + confusionTN y_true y_pred →
      (compute_fpr_tpr y_true y_pred).fpr =
        (confusionFP y_true y_pred : ℚ) /
          ((confusionFP y_true y_pred + confusionTN y_true y_pred : ℕ) : ℚ)) ∧
    (confusionFP y_true y_pred + confusionTN y_true y_pred = 0 →
      (compute_fpr_tpr y_true y_pred).fpr = 0) ∧
    ((∀ t ∈ y_true, t = 0) → (compute_fpr_tpr y_true y_pred).tpr = 0) ∧
    ((∀ t ∈ y_true, t = 1) → (compute_fpr_tpr y_true y_pred).fpr = 0) := by
  have htp := countP_tp_eq y_true y_pred
  have hfn := countP_fn_eq y_true y_pred
  have hfp := countP_fp_eq y_true y_pred
  have htn := countP_tn_eq y_true y_pred
  have htpr : (compute_fpr_tpr y_true y_pred).tpr =
      if 0 < confusionTP y_true y_pred + confusionFN y_true y_pred then
        (confusionTP y_true y_pred : ℚ) /
          ((confusionTP y_true y_pred + confusionFN y_true y_pred : ℕ) : ℚ)
      else 0 := by
    simp only [compute_fpr_tpr, htp, hfn, hfp, htn]
  have hfpr : (compute_fpr_tpr y_true y_pred).fpr =
      if 0 < confusionTN y_true y_pred + confusionFP y_true y_pred then
        (confusionFP y_true y_pred : ℚ) /
          ((confusionTN y_true y_pred + confusionFP y_true y_pred : ℕ) : ℚ)
      else 0 := by
    simp only [compute_fpr_tpr, htp, hfn, hfp, htn]
  refine ⟨fun h => ?_, fun h => ?_, fun h => ?_, fun h => ?_, fun h => ?_, fun h => ?_⟩
  · rw [htpr, if_pos h]
  · rw [htpr, if_neg (by omega)]
  · rw [hfpr, if_pos (by omega), Nat.add_comm]
  · rw [hfpr, if_neg (by omega)]
  · have hTP : confusionTP y_true y_pred = 0 := by
      rw [confusionTP, List.length_eq_zero, List.filter_eq_nil_iff]
      intro p hp
      simp [h _ (List.of_mem_zip hp).1]
    have hFN : confusionFN y_true y_pred = 0 := by
      rw [confusionFN, List.length_eq_zero, List.filter_eq_nil_iff]
      intro p hp
      simp [h _ (List.of_mem_zip hp).1]
    rw [htpr, if_neg (by omega)]
  · have hFP : confusionFP y_true y_pred = 0 := by
      rw [confusionFP, List.length_eq_zero, List.filter_eq_nil_iff]
      intro p hp
      simp [h _ (List.of_mem_zip hp).1]
    have hTN : confusionTN y_true y_pred = 0 := by
      rw [confusionTN, List.length_eq_zero, List.filter_eq_nil_iff]
      intro p hp
      simp [h _ (List.of_mem_zip hp).1]
    rw [hfpr, if_neg (by omega)]

/-- Witness for claim C1: at `y_true = [1, 0]`, `y_pred = [1, 1]` the
positive branch applies, and at `y_true = [0, 0]` the all-zero zero-guard
applies. -/
theorem compute_fpr_tpr_matches_confusion_counts_witness :
    ((compute_fpr_tpr [1, 0] [1, 1]).tpr =
      (confusionTP [1, 0] [1, 1] : ℚ) /
        ((confusionTP [1, 0] [1, 1] + confusionFN [1, 0] [1, 1] : ℕ) : ℚ)) ∧
    ((compute_fpr_tpr [0, 0] [1, 0]).tpr = 0) :=
  ⟨(compute_fpr_tpr_matches_confusion_counts [1, 0] [1, 1]).1
      (by norm_num [confusionTP, confusionFN, List.zip]),
   (compute_fpr_tpr_matches_confusion_counts [0, 0] [1, 0]).2.2.2.2.1 (by norm_num)⟩

end Solution

namespace Solution

/-- The recursive `np.trapz` embedding agrees with the indexed-sum trapezoid
formula on equal-length lists. -/
lemma trapz_eq_trapezoidSpec (ys : List ℚ) : ∀ (xs : List ℚ), ys.length = xs.length →
    trapz ys xs = trapezoidSpec ys xs := by
  induction ys with
  | nil =>
    intro xs h
    cases xs with
    | nil => simp [trapz, trapezoidSpec]
    | cons x xs' => simp at h
  | cons y1 ytl ih =>
    intro xs h
    cases ytl with
    | nil =>
      cases xs with
      | nil => simp at h
      | cons x1 xtl =>
        cases xtl with
        | nil => simp [trapz, trapezoidSpec]
        | cons x2 xtl' => simp at h
    | cons y2 ytl' =>
      cases xs with
      | nil => simp at h
      | cons x1 xtl =>
        cases xtl with
        | nil => simp at h
        | cons x2 xtl' =>
          have h' : (y2 :: ytl').length = (x2 :: xtl').length := by
            simpa using h
          have hrec := ih (x2 :: xtl') h'
          show (x2 - x1) * (y1 + y2) / 2 + trapz (y2 :: ytl') (x2 :: xtl') =
            trapezoidSpec (y1 :: y2 :: ytl') (x1 :: x2 :: xtl')
          rw [hrec]
          unfold trapezoidSpec
          simp only [List.length_cons, Nat.add_sub_cancel]
          rw [Finset.sum_range_succ']
          simp only [List.getD_cons_succ, List.getD_cons_zero]
          ring

/-- Claim C2: `compute_auc` computes exactly the procedure the specification
describes: threshold the scores at `k = 0, 0.05, ..., 0.95` in increasing
order, collect the `(fpr, tpr)` pairs via `compute_fpr_tpr`, and return the
absolute trapezoidal integral of the tpr sequence over the fpr sequence in
that threshold order. -/
theorem compute_auc_eq_claim_formulation (y_true y_model : List ℚ) :
    compute_auc y_true y_model = compute_auc_claim y_true y_model := by
  have hk : spec_thresholds = k_list := by
    unfold spec_thresholds k_list
    refine List.map_congr_left ?_
    intro j _
    have h5 : (5 : ℚ) / 100 = 1 / 20 := by norm_num
    rw [h5]
    ring
  unfold compute_auc compute_auc_claim
  rw [hk]
  simp only [List.map_map]
  rw [trapz_eq_trapezoidSpec]
  · rfl
  · simp

end Solution

namespace Solution

/-- Splitting a count over a predicate conjoined with a flag and with its
negation recovers the count of the predicate alone. -/
lemma countP_and_split (l : List (ℚ × ℚ)) (f g : ℚ × ℚ → Bool) :
    l.countP (fun p => f p && g p) + l.countP (fun p => !f p && g p) = l.countP g := by
  induction l with
  | nil => simp
  | cons a tl ih =>
    simp only [List.countP_cons]
    cases hf : f a <;> cases hg : g a <;> simp [hf, hg] <;> omega

/-- The true-positive count of the thresholded prediction equals `tpAt`. -/
lemma tp_threshold_eq (t m : List ℚ) (k : ℚ) :
    ((threshold_pred k m).zip t).countP (fun p => p.1 == 1 && p.2 == 1) = tpAt t m k := by
  unfold threshold_pred tpAt
  rw [List.zip_map_left, List.countP_map]
  refine List.countP_congr ?_
  intro p _
  by_cases h : k < p.1 <;> simp [h, Prod.map]

/-- The false-negative count of the thresholded prediction. -/
lemma fn_threshold_eq (t m : List ℚ) (k : ℚ) :
    ((threshold_pred k m).zip t).countP (fun p => p.1 == 0 && p.2 == 1)
      = (m.zip t).countP (fun p => !decide (k < p.1) && p.2 == 1) := by
  unfold threshold_pred
  rw [List.zip_map_left, List.countP_map]
  refine List.countP_congr ?_
  intro p _
  by_cases h : k < p.1 <;> simp [h, Prod.map]

/-- The false-positive count of the thresholded prediction equals `fpAt`. -/
lemma fp_threshold_eq (t m : List ℚ) (k : ℚ) :
    ((threshold_pred k m).zip t).countP (fun p => p.1 == 1 && p.2 == 0) = fpAt t m k := by
  unfold threshold_pred fpAt
  rw [List.zip_map_left, List.countP_map]
  refine List.countP_congr ?_
  intro p _
  by_cases h : k < p.1 <;> simp [h, Prod.map]

/-- The true-negative count of the thresholded prediction. -/
lemma tn_threshold_eq (t m : List ℚ) (k : ℚ) :
    ((threshold_pred k m).zip t).countP (fun p => p.1 == 0 && p.2 == 0)
      = (m.zip t).countP (fun p => !decide (k < p.1) && p.2 == 0) := by
  unfold threshold_pred
  rw [List.zip_map_left, List.countP_map]
  refine List.countP_congr ?_
  intro p _
  by_cases h : k < p.1 <;> simp [h, Prod.map]

/-- `compute_fpr_tpr` applied to a thresholded prediction yields
`(fprAt, tprAt)`: the denominators are the threshold-independent positive and
negative label counts. -/
lemma compute_fpr_tpr_threshold (t m : List ℚ) (k : ℚ) :
    compute_fpr_tpr t (threshold_pred k m) = ⟨fprAt t m k, tprAt t m k⟩ := by
  have hpos : tpAt t m k + (m.zip t).countP (fun p => !decide (k < p.1) && p.2 == 1)
      = posCount t m := countP_and_split _ _ _
  have hneg : fpAt t m k + (m.zip t).countP (fun p => !decide (k < p.1) && p.2 == 0)
      = negCount t m := countP_and_split _ _ _
  unfold compute_fpr_tpr
  simp only [tp_threshold_eq, fn_threshold_eq, fp_threshold_eq, tn_threshold_eq]
  unfold fprAt tprAt
  rw [show (m.zip t).countP (fun p => !decide (k < p.1) && p.2 == 0) + fpAt t m k
      = negCount t m from by omega]
  rw [show tpAt t m k + (m.zip t).countP (fun p => !decide (k < p.1) && p.2 == 1)
      = posCount t m from hpos]

/-- Thresholded true positives never exceed the positive count. -/
lemma tpAt_le_posCount (t m : List ℚ) (k : ℚ) : tpAt t m k ≤ posCount t m :=
  List.countP_mono_left (fun p _ h => by
    simp only [Bool.and_eq_true] at h
    exact h.2)

/-- Thresholded false positives never exceed the negative count. -/
lemma fpAt_le_negCount (t m : List ℚ) (k : ℚ) : fpAt t m k ≤ negCount t m :=
  List.countP_mono_left (fun p _ h => by
    simp only [Bool.and_eq_true] at h
    exact h.2)

/-- Raising the threshold can only shrink the true-positive count. -/
lemma tpAt_antitone (t m : List ℚ) {k1 k2 : ℚ} (h : k1 ≤ k2) :
    tpAt t m k2 ≤ tpAt t m k1 :=
  List.countP_mono_left (fun p _ hp => by
    simp only [Bool.and_eq_true, decide_eq_true_eq] at hp ⊢
    exact ⟨lt_of_le_of_lt h hp.1, hp.2⟩)

/-- Raising the threshold can only shrink the false-positive count. -/
lemma fpAt_antitone (t m : List ℚ) {k1 k2 : ℚ} (h : k1 ≤ k2) :
    fpAt t m k2 ≤ fpAt t m k1 :=
  List.countP_mono_left (fun p _ hp => by
    simp only [Bool.and_eq_true, decide_eq_true_eq] at hp ⊢
    exact ⟨lt_of_le_of_lt h hp.1, hp.2⟩)

/-- Every tpr value of the sweep is nonnegative. -/
lemma tprAt_nonneg (t m : List ℚ) (k : ℚ) : 0 ≤ tprAt t m k := by
  unfold tprAt
  split
  · positivity
  · norm_num

/-- Every tpr value of the sweep is at most one. -/
lemma tprAt_le_one (t m : List ℚ) (k : ℚ) : tprAt t m k ≤ 1 := by
  unfold tprAt
  split
  · rename_i h
    rw [div_le_one (by exact_mod_cast h)]
    exact_mod_cast tpAt_le_posCount t m k
  · norm_num

/-- Every fpr value of the sweep is nonnegative. -/
lemma fprAt_nonneg (t m : List ℚ) (k : ℚ) : 0 ≤ fprAt t m k := by
  unfold fprAt
  split
  · positivity
  · norm_num

/-- Every fpr value of the sweep is at most one. -/
lemma fprAt_le_one (t m : List ℚ) (k : ℚ) : fprAt t m k ≤ 1 := by
  unfold fprAt
  split
  · rename_i h
    rw [div_le_one (by exact_mod_cast h)]
    exact_mod_cast fpAt_le_negCount t m k
  · norm_num

/-- tpr is antitone in the threshold. -/
lemma tprAt_antitone (t m : List ℚ) {k1 k2 : ℚ} (h : k1 ≤ k2) :
    tprAt t m k2 ≤ tprAt t m k1 := by
  unfold tprAt
  split
  · rename_i hP
    gcongr
    exact_mod_cast tpAt_antitone t m h
  · exact le_refl 0

/-- fpr is antitone in the threshold. -/
lemma fprAt_antitone (t m : List ℚ) {k1 k2 : ℚ} (h : k1 ≤ k2) :
    fprAt t m k2 ≤ fprAt t m k1 := by
  unfold fprAt
  split
  · rename_i hN
    gcongr
    exact_mod_cast fpAt_antitone t m h
  · exact le_refl 0

/-- The 20 thresholds of the sweep are listed in increasing order. -/
lemma k_list_chain : k_list.Chain' (· ≤ ·) := by
  norm_num [k_list, List.range_succ]

/-- If the x-coordinates are antitone along the list and the y-coordinates
are nonnegative, the trapezoidal integral is nonpositive. -/
lemma trapzP_nonpos (l : List (ℚ × ℚ)) (hmem : ∀ p ∈ l, 0 ≤ p.2)
    (hchain : l.Chain' (fun a b => b.1 ≤ a.1)) : trapzP l ≤ 0 := by
  induction l with
  | nil => simp [trapzP]
  | cons p tl ih =>
    cases tl with
    | nil =>
      obtain ⟨x, y⟩ := p
      simp [trapzP]
    | cons q tl' =>
      obtain ⟨x1, y1⟩ := p
      obtain ⟨x2, y2⟩ := q
      have hx : x2 ≤ x1 := (List.chain'_cons.mp hchain).1
      have hy1 : 0 ≤ y1 := hmem (x1, y1) (by simp)
      have hy2 : 0 ≤ y2 := hmem (x2, y2) (by simp)
      have htail : trapzP ((x2, y2) :: tl') ≤ 0 := by
        refine ih ?_ (List.chain'_cons.mp hchain).2
        intro r hr
        exact hmem r (List.mem_cons_of_mem _ hr)
      show (x2 - x1) * (y1 + y2) / 2 + trapzP ((x2, y2) :: tl') ≤ 0
      nlinarith

/-- With antitone x-coordinates and y-coordinates at most one, the
trapezoidal integral is at least the last x minus the first x. -/
lemma trapzP_ge_last_sub_head (l : List (ℚ × ℚ)) : ∀ (p : ℚ × ℚ),
    (∀ q ∈ p :: l, q.2 ≤ 1) →
    ((p :: l).Chain' (fun a b => b.1 ≤ a.1)) →
    ((p :: l).getLast (List.cons_ne_nil p l)).1 - p.1 ≤ trapzP (p :: l) := by
  induction l with
  | nil =>
    intro p _ _
    obtain ⟨x, y⟩ := p
    simp [trapzP]
  | cons q tl ih =>
    intro p hmem hchain
    have hlast : ((p :: q :: tl).getLast (List.cons_ne_nil p (q :: tl))).1
        = ((q :: tl).getLast (List.cons_ne_nil q tl)).1 := by
      rw [List.getLast_cons]
    have hih := ih q (fun r hr => hmem r (List.mem_cons_of_mem _ hr))
      (List.chain'_cons.mp hchain).2
    obtain ⟨x1, y1⟩ := p
    obtain ⟨x2, y2⟩ := q
    have hx : x2 ≤ x1 := (List.chain'_cons.mp hchain).1
    have hy1 : y1 ≤ 1 := hmem (x1, y1) (by simp)
    have hy2 : y2 ≤ 1 := hmem (x2, y2) (by simp)
    have hterm : x2 - x1 ≤ (x2 - x1) * (y1 + y2) / 2 := by nlinarith
    show ((((x1, y1) : ℚ × ℚ) :: (x2, y2) :: tl).getLast
        (List.cons_ne_nil _ _)).1 - x1 ≤ (x2 - x1) * (y1 + y2) / 2 + trapzP ((x2, y2) :: tl)
    rw [hlast]
    linarith

/-- `np.trapz` on two maps over the same index list is the paired trapezoidal
integral. -/
lemma trapz_map_eq_trapzP (f g : ℚ → ℚ) : ∀ (ks : List ℚ),
    trapz (ks.map g) (ks.map f) = trapzP (ks.map (fun k => (f k, g k))) := by
  intro ks
  induction ks with
  | nil => simp [trapz, trapzP]
  | cons k1 ktl ih =>
    cases ktl with
    | nil => simp [trapz, trapzP]
    | cons k2 ktl' =>
      show (f k2 - f k1) * (g k1 + g k2) / 2 + trapz ((k2 :: ktl').map g) ((k2 :: ktl').map f)
        = (f k2 - f k1) * (g k1 + g k2) / 2 + trapzP ((k2 :: ktl').map (fun k => (f k, g k)))
      rw [ih]

/-- Claim C3: the value returned by `compute_auc` always lies in the closed
unit interval, for arbitrary label and score arrays. -/
theorem compute_auc_mem_unit_interval (y_true y_model : List ℚ) :
    0 ≤ compute_auc y_true y_model ∧ compute_auc y_true y_model ≤ 1 := by
  refine ⟨abs_nonneg _, ?_⟩
  unfold compute_auc
  simp only [compute_fpr_tpr_threshold]
  rw [trapz_map_eq_trapzP (fun k => fprAt y_true y_model k) (fun k => tprAt y_true y_model k)]
  have hmem : ∀ p ∈ k_list.map (fun k => (fprAt y_true y_model k, tprAt y_true y_model k)),
      0 ≤ p.1 ∧ p.1 ≤ 1 ∧ 0 ≤ p.2 ∧ p.2 ≤ 1 := by
    intro p hp
    obtain ⟨k, _, rfl⟩ := List.mem_map.mp hp
    exact ⟨fprAt_nonneg _ _ _, fprAt_le_one _ _ _, tprAt_nonneg _ _ _, tprAt_le_one _ _ _⟩
  have hchain : (k_list.map (fun k => (fprAt y_true y_model k, tprAt y_true y_model k))).Chain'
      (fun a b => b.1 ≤ a.1) := by
    rw [List.chain'_map]
    exact k_list_chain.imp (fun a b hab => fprAt_antitone y_true y_model hab)
  cases hl : k_list.map (fun k => (fprAt y_true y_model k, tprAt y_true y_model k)) with
  | nil => simp [trapzP]
  | cons p l' =>
    rw [hl] at hmem hchain
    rw [abs_le]
    constructor
    · have hge := trapzP_ge_last_sub_head l' p
        (fun q hq => (hmem q hq).2.2.2) hchain
      have hlastmem : ((p :: l').getLast (List.cons_ne_nil p l')) ∈ p :: l' :=
        List.getLast_mem _
      have h1 : 0 ≤ ((p :: l').getLast (List.cons_ne_nil p l')).1 :=
        (hmem _ hlastmem).1
      have h2 : p.1 ≤ 1 := (hmem p (List.mem_cons_self p l')).2.1
      linarith
    · have hle := trapzP_nonpos (p :: l')
        (fun q hq => (hmem q hq).2.2.1) hchain
      linarith

end Solution

namespace Solution

/-- Claim C4: if every positive-labelled sample has score `1` and every
negative-labelled sample has score `0`, and both a positive and a negative
label occur, then thresholding the scores at `k = 0` and applying
`compute_fpr_tpr` yields `tpr = 1` and `fpr = 0`. -/
theorem compute_fpr_tpr_perfect_separation (y_true scores : List ℚ)
    (hlen : y_true.length = scores.length)
    (hpos : (1 : ℚ) ∈ y_true) (hneg : (0 : ℚ) ∈ y_true)
    (hsep : ∀ p ∈ y_true.zip scores, (p.1 = 1 → p.2 = 1) ∧ (p.1 = 0 → p.2 = 0)) :
    compute_fpr_tpr y_true (threshold_pred 0 scores) = ⟨0, 1⟩ := by
  rw [compute_fpr_tpr_threshold]
  have hswap := countP_zip_swap scores y_true
  have htp : tpAt y_true scores 0 = posCount y_true scores := by
    unfold tpAt posCount
    rw [hswap (fun a b => decide (0 < a) && b == 1), hswap (fun a b => b == 1)]
    refine List.countP_congr ?_
    intro p hp
    simp only [Bool.and_eq_true, decide_eq_true_eq, beq_iff_eq]
    constructor
    · intro h
      exact h.2
    · intro h
      refine ⟨?_, h⟩
      rw [(hsep p hp).1 h]
      norm_num
  have hfp : fpAt y_true scores 0 = 0 := by
    unfold fpAt
    rw [hswap (fun a b => decide (0 < a) && b == 0)]
    rw [List.countP_eq_zero]
    intro p hp
    simp only [Bool.and_eq_true, decide_eq_true_eq, beq_iff_eq, not_and]
    intro h0 h1
    rw [(hsep p hp).2 h1] at h0
    exact lt_irrefl 0 h0
  have hPpos : 0 < posCount y_true scores := by
    unfold posCount
    rw [hswap (fun a b => b == 1)]
    rw [List.countP_pos_iff]
    obtain ⟨i, hi, hget⟩ := List.mem_iff_getElem.mp hpos
    have hiz : i < (y_true.zip scores).length := by
      rw [List.length_zip]
      omega
    refine ⟨(y_true.zip scores)[i], List.getElem_mem hiz, ?_⟩
    rw [List.getElem_zip]
    simpa using hget
  have hNpos : 0 < negCount y_true scores := by
    unfold negCount
    rw [hswap (fun a b => b == 0)]
    rw [List.countP_pos_iff]
    obtain ⟨i, hi, hget⟩ := List.mem_iff_getElem.mp hneg
    have hiz : i < (y_true.zip scores).length := by
      rw [List.length_zip]
      omega
    refine ⟨(y_true.zip scores)[i], List.getElem_mem hiz, ?_⟩
    rw [List.getElem_zip]
    simpa using hget
  unfold fprAt tprAt
  rw [htp, hfp, if_pos hPpos, if_pos hNpos]
  rw [div_self (by exact_mod_cast Nat.pos_iff_ne_zero.mp hPpos)]
  norm_num

/-- Witness for claim C4 at `y_true = [1, 0]`, `scores = [1, 0]`. -/
theorem compute_fpr_tpr_perfect_separation_witness :
    compute_fpr_tpr [1, 0] (threshold_pred 0 [1, 0]) = ⟨0, 1⟩ :=
  compute_fpr_tpr_perfect_separation [1, 0] [1, 0] (by norm_num)
    (by norm_num) (by norm_num)
    (by
      intro p hp
      simp only [List.zip, List.zipWith, List.mem_cons, List.not_mem_nil, or_false] at hp
      rcases hp with rfl | rfl <;> norm_num)

end Solution

namespace Solution

/-- Claim C5: for every split name other than the three recognized ones,
construction fails at the assert — which consults only the split string,
before any file is opened — with the source's assertion message, whatever the
file contents; for the three recognized names this check passes and
construction succeeds for every file. -/
theorem bassetInit_validates_split (split : String) :
    (split ∉ split_dict_keys →
      bassetInitCheck split =
        Except.error "'split' argument can be only defined as 'train', 'valid' or 'test'" ∧
      ∀ f5 : H5File, bassetInit f5 split =
        Except.error "'split' argument can be only defined as 'train', 'valid' or 'test'") ∧
    (split ∈ split_dict_keys →
      ∀ f5 : H5File, ∃ ds : BassetDataset, bassetInit f5 split = Except.ok ds) := by
  constructor
  · intro h
    have hc : bassetInitCheck split =
        Except.error "'split' argument can be only defined as 'train', 'valid' or 'test'" := by
      unfold bassetInitCheck
      rw [if_neg h]
    refine ⟨hc, fun f5 => ?_⟩
    unfold bassetInit
    rw [hc]
  · intro h f5
    have hc : bassetInitCheck split = Except.ok () := by
      unfold bassetInitCheck
      rw [if_pos h]
    unfold bassetInit
    rw [hc]
    exact ⟨_, rfl⟩

/-- Witness for claim C5: the split name `"foo"` is rejected and the split
name `"train"` is accepted on a concrete file. -/
theorem bassetInit_validates_split_witness :
    (bassetInitCheck "foo" =
      Except.error "'split' argument can be only defined as 'train', 'valid' or 'test'") ∧
    (∃ ds : BassetDataset, bassetInit trivialH5File "train" = Except.ok ds) :=
  ⟨((bassetInit_validates_split "foo").1 (by simp [split_dict_keys])).1,
   (bassetInit_validates_split "train").2 (by simp [split_dict_keys]) trivialH5File⟩

/-- Claim C6: the dataset length is the row count of the split's output
array, and the axis rearrangement `__getitem__` performs preserves the total
element count of the stored input item while converting it to float32. -/
theorem bassetDataset_len_and_getitem_shape (ds : BassetDataset) (i : Fin ds.ids.length) :
    bassetLen ds = ds.arrays.nOut ∧
    elemCount (getitem_sequence ds i) = elemCount (itemTensor ds (ds.ids.get i)) ∧
    (getitem_sequence ds i).dtype = DType.float32 := by
  refine ⟨rfl, ?_, rfl⟩
  simp only [getitem_sequence, swapaxes01, swapaxes12, astype_float32, itemTensor, elemCount]
  ring

end Solution

namespace Solution

/-- Folding the `train_loop` body accumulates, on top of the starting
accumulator, the sum of per-batch AUCs, the sum of per-batch
`loss value × batch size`, the total sample count, and the batch count. -/
lemma train_foldl_acc {P O : Type}
    (forwardT : P → List (List ℚ) → P × List (List ℚ))
    (criterion : List (List ℚ) → List (List ℚ) → ℚ)
    (sigmoid : ℚ → ℚ)
    (optStep : O → P → List (List ℚ) → List (List ℚ) → O × P) :
    ∀ (bs : List Batch) (p : P) (o : O) (acc : LoopAcc),
      (bs.foldl (train_batch_update forwardT criterion sigmoid optStep) ((p, o), acc)).2 =
        ⟨acc.total_score +
          ((train_trace forwardT criterion sigmoid optStep p o bs).map (fun r => r.1)).sum,
         acc.total_loss +
          ((train_trace forwardT criterion sigmoid optStep p o bs).map
            (fun r => r.2.1 * (r.2.2 : ℚ))).sum,
         acc.counter + (bs.map (fun b => b.target.length)).sum,
         acc.batch_counter + bs.length⟩ := by
  intro bs
  induction bs with
  | nil =>
    intro p o acc
    simp [train_trace]
  | cons b tl ih =>
    intro p o acc
    rw [List.foldl_cons]
    rw [ih]
    simp only [train_batch_update, train_trace, List.map_cons, List.sum_cons, List.length_cons]
    simp only [LoopAcc.mk.injEq]
    exact ⟨by ring, by ring, by omega, by omega⟩

/-- Folding the `valid_loop` body accumulates the per-batch AUCs and the
`loss value × batch size` products, with a module state that never changes. -/
lemma valid_foldl_acc {P : Type} (p : P)
    (forwardE : P → List (List ℚ) → List (List ℚ))
    (criterion : List (List ℚ) → List (List ℚ) → ℚ)
    (sigmoid : ℚ → ℚ) :
    ∀ (bs : List Batch) (acc : LoopAcc),
      bs.foldl (valid_batch_update p forwardE criterion sigmoid) acc =
        ⟨acc.total_score + (bs.map (batch_auc p forwardE sigmoid)).sum,
         acc.total_loss + (bs.map (fun b =>
           criterion (forwardE p b.sequence) b.target * (b.target.length : ℚ))).sum,
         acc.counter + (bs.map (fun b => b.target.length)).sum,
         acc.batch_counter + bs.length⟩ := by
  intro bs
  induction bs with
  | nil =>
    intro acc
    simp
  | cons b tl ih =>
    intro acc
    rw [List.foldl_cons, ih]
    simp only [valid_batch_update, batch_auc, List.map_cons, List.sum_cons, List.length_cons]
    simp only [LoopAcc.mk.injEq]
    exact ⟨by ring, by ring, by omega, by omega⟩

/-- Claim C7: over a non-empty data source both loops return as score the sum
of per-batch AUC values divided by the number of batches, and as loss the sum
over batches of the batch loss value times the batch size, with no division
of the loss by the total sample count. -/
theorem loops_average_auc_and_sum_loss {P O : Type}
    (model : TorchModel P) (batches : List Batch) (optimizer : O)
    (forwardT : P → List (List ℚ) → P × List (List ℚ))
    (forwardE : P → List (List ℚ) → List (List ℚ))
    (criterion : List (List ℚ) → List (List ℚ) → ℚ)
    (sigmoid : ℚ → ℚ)
    (optStep : O → P → List (List ℚ) → List (List ℚ) → O × P)
    (hne : batches ≠ []) :
    (train_loop model batches optimizer forwardT criterion sigmoid optStep).2 =
      Except.ok
        (((train_trace forwardT criterion sigmoid optStep model.params optimizer batches).map
            (fun r => r.1)).sum / (batches.length : ℚ),
         ((train_trace forwardT criterion sigmoid optStep model.params optimizer batches).map
            (fun r => r.2.1 * (r.2.2 : ℚ))).sum) ∧
    (valid_loop model batches optimizer forwardE criterion sigmoid).2 =
      Except.ok
        ((batches.map (batch_auc model.params forwardE sigmoid)).sum / (batches.length : ℚ),
         (batches.map (fun b =>
           criterion (forwardE model.params b.sequence) b.target * (b.target.length : ℚ))).sum) := by
  have hlen : batches.length ≠ 0 := by
    intro h
    exact hne (List.length_eq_zero.mp h)
  constructor
  · simp only [train_loop, train_foldl_acc, zero_add]
    rw [if_neg hlen]
  · simp only [valid_loop, valid_foldl_acc, zero_add]
    rw [if_neg hlen]

/-- Witness for claim C7: a one-batch data source with identity forward pass,
identity sigmoid, zero criterion and trivial optimizer step. -/
theorem loops_average_auc_and_sum_loss_witness :
    (train_loop (⟨(), false⟩ : TorchModel Unit) [(⟨[[0]], [[1]]⟩ : Batch)] ()
        (fun p x => (p, x)) (fun _ _ => 0) (fun q => q) (fun o p _ _ => (o, p))).2 =
      Except.ok
        (((train_trace (fun p x => (p, x)) (fun _ _ => 0) (fun q => q) (fun o p _ _ => (o, p))
            () () [(⟨[[0]], [[1]]⟩ : Batch)]).map (fun r => r.1)).sum /
          (([(⟨[[0]], [[1]]⟩ : Batch)].length : ℕ) : ℚ),
         ((train_trace (fun p x => (p, x)) (fun _ _ => 0) (fun q => q) (fun o p _ _ => (o, p))
            () () [(⟨[[0]], [[1]]⟩ : Batch)]).map (fun r => r.2.1 * (r.2.2 : ℚ))).sum) ∧
    (valid_loop (⟨(), false⟩ : TorchModel Unit) [(⟨[[0]], [[1]]⟩ : Batch)] ()
        (fun _ x => x) (fun _ _ => 0) (fun q => q)).2 =
      Except.ok
        (([(⟨[[0]], [[1]]⟩ : Batch)].map (batch_auc () (fun _ x => x) (fun q => q))).sum /
          (([(⟨[[0]], [[1]]⟩ : Batch)].length : ℕ) : ℚ),
         ([(⟨[[0]], [[1]]⟩ : Batch)].map (fun b =>
           (fun (_ _ : List (List ℚ)) => (0 : ℚ)) ((fun _ x => x) () b.sequence) b.target *
             (b.target.length : ℚ))).sum) :=
  loops_average_auc_and_sum_loss ⟨(), false⟩ [(⟨[[0]], [[1]]⟩ : Batch)] ()
    (fun p x => (p, x)) (fun _ x => x) (fun _ _ => 0) (fun q => q) (fun o p _ _ => (o, p))
    (by simp)

/-- Claim C8: on a data source yielding exactly one batch both loops run to
completion and return a result (the final division is by a batch counter of
one). -/
theorem loops_single_batch_no_error {P O : Type}
    (model : TorchModel P) (b : Batch) (optimizer : O)
    (forwardT : P → List (List ℚ) → P × List (List ℚ))
    (forwardE : P → List (List ℚ) → List (List ℚ))
    (criterion : List (List ℚ) → List (List ℚ) → ℚ)
    (sigmoid : ℚ → ℚ)
    (optStep : O → P → List (List ℚ) → List (List ℚ) → O × P) :
    (train_loop model [b] optimizer forwardT criterion sigmoid optStep).2.isOk = true ∧
    (valid_loop model [b] optimizer forwardE criterion sigmoid).2.isOk = true := by
  constructor
  · simp only [train_loop, List.foldl_cons, List.foldl_nil]
    simp [train_batch_update, Except.isOk, Except.toBool]
  · simp only [valid_loop, List.foldl_cons, List.foldl_nil]
    simp [valid_batch_update, Except.isOk, Except.toBool]

/-- Claim C9: on a data source yielding zero batches both loops reach the
final score normalization with a batch counter of zero and raise a
division-by-zero error instead of returning a result. -/
theorem loops_empty_dataloader_zero_division {P O : Type}
    (model : TorchModel P) (optimizer : O)
    (forwardT : P → List (List ℚ) → P × List (List ℚ))
    (forwardE : P → List (List ℚ) → List (List ℚ))
    (criterion : List (List ℚ) → List (List ℚ) → ℚ)
    (sigmoid : ℚ → ℚ)
    (optStep : O → P → List (List ℚ) → List (List ℚ) → O × P) :
    (train_loop model [] optimizer forwardT criterion sigmoid optStep).2 =
      Except.error "ZeroDivisionError: float division by zero" ∧
    (valid_loop model [] optimizer forwardE criterion sigmoid).2 =
      Except.error "ZeroDivisionError: float division by zero" :=
  ⟨rfl, rfl⟩

/-- Claim C10: `valid_loop` returns the module with its parameters and
buffers (batch-norm running statistics included) untouched and only the
training flag set to eval mode, and its entire result is independent of the
optimizer argument it receives — the optimizer is never invoked. -/
theorem valid_loop_frame_effect {P O : Type}
    (model : TorchModel P) (batches : List Batch) (o1 o2 : O)
    (forwardE : P → List (List ℚ) → List (List ℚ))
    (criterion : List (List ℚ) → List (List ℚ) → ℚ)
    (sigmoid : ℚ → ℚ) :
    (valid_loop model batches o1 forwardE criterion sigmoid).1 = ⟨model.params, false⟩ ∧
    valid_loop model batches o1 forwardE criterion sigmoid =
      valid_loop model batches o2 forwardE criterion sigmoid :=
  ⟨rfl, rfl⟩

end Solution
